import Mathlib

/-!
Shallow embedding of the query-building core of `bot/dbhandler.py`
(the `DBHandler` data-access layer of the thonky bot).

Pure string manipulation (SQL text construction) is embedded directly.
Database effects are made explicit: the rows an executed statement would
fetch (`fetched`) and the catalog column list of a table (`columns`) are
passed in as parameters, and each operation returns the statement text it
executes together with the bound parameter list.  Fallible Python code
(list indexing in `dictify`, which raises `IndexError` when a row is
shorter than the field list) is embedded in `Option`, with `none` as the
error outcome.  The in-place mutation of `given_values` performed by
`_add` is embedded by explicit state passing: `add` returns the mutated
mapping as part of its result.
-/

set_option autoImplicit false

namespace Thonky

/-- A SQL value as the driver sees it: a string, an integer, or a Python
dict (structured value destined for a JSON-ish column). -/
inductive Val where
  | str : String → Val
  | int : Int → Val
  | dict : List (String × Val) → Val

/-- A Python dict with string keys, in insertion order. -/
abbrev Dict := List (String × Val)

/-- Python dict assignment `d[k] = v`: replaces the value at the first
(and, for a real dict, only) occurrence of `k`, keeping its position;
appends the new entry at the end otherwise. -/
def dictAssign : Dict → String → Val → Dict
  | [], k, v => [(k, v)]
  | (k0, v0) :: rest, k, v =>
    if k0 = k then (k, v) :: rest else (k0, v0) :: dictAssign rest k v

/-- Python dict read `d[k]` at the first occurrence of `k`. -/
def dictLookup : Dict → String → Option Val
  | [], _ => none
  | (k0, v0) :: rest, k => if k0 = k then some v0 else dictLookup rest k

/-- Loop of `dictify`: `for i, key in enumerate(fields):
formatted_data[key] = data[i]`.  Indexing starts at `0` and advances in
lockstep with `fields`, so it consumes `data` from the front; `data[i]`
raises `IndexError` (here `none`) when `data` is exhausted while fields
remain. -/
def dictifyGo : List Val → List String → Dict → Option Dict
  | _, [], acc => some acc
  | [], _ :: _, _ => none
  | v :: vs, k :: ks, acc => dictifyGo vs ks (dictAssign acc k v)

/-- `dictify(data, fields)` from `dbhandler.py`: convert a tuple to a
dict with the given keys. -/
def dictify (data : List Val) (fields : List String) : Option Dict :=
  dictifyGo data fields []

/-- `get_check(field_name, case_sensitive)` from `dbhandler.py`. -/
def get_check (field_name : String) (case_sensitive : Bool) : String :=
  if case_sensitive then "WHERE " ++ field_name ++ " = %s"
  else "WHERE LOWER(" ++ field_name ++ ") = LOWER(%s)"

/-- The 16 spaces of indentation inside the triple-quoted f-strings of
`_search` and `_update_many`. -/
def sqlIndent : String := "                "

/-- `DBHandler._get_table_fields(table_name)`, as a function of the
catalog-order column-name list the `information_schema.columns` query
returns for the table: `if 'server_id' in fields: fields = fields[1:]`. -/
def get_table_fields (columns : List String) : List String :=
  if "server_id" ∈ columns then columns.drop 1 else columns

/-- Python `sep.join(items)`: the items concatenated with `sep` between
consecutive ones. -/
def joinWith (sep : String) : List String → String
  | [] => ""
  | [x] => x
  | x :: y :: rest => x ++ sep ++ joinWith sep (y :: rest)

/-- A Python list comprehension `[f(x) for x in l]` whose body may raise:
evaluates left to right and aborts at the first failure. -/
def mapOption {α β : Type} (f : α → Option β) : List α → Option (List β)
  | [] => some []
  | a :: as =>
    match f a with
    | none => none
    | some b => (mapOption f as).map (fun bs => b :: bs)

/-- `DBHandler._format_sql_data(table_name)`, as a function of the
fetched rows (`self.cursor.fetchall()`) and the table's catalog columns:
returns `[]` on no data, otherwise strips the leading column of each row
(`entry[1:]` / `data[0][1:]`) and zips the rest with the trimmed field
list, with a separate branch for a single row. -/
def format_sql_data (data : List (List Val)) (columns : List String) :
    Option (List Dict) :=
  let fields := get_table_fields columns
  match data with
  | [] => some []
  | [row] => (dictify (row.drop 1) fields).map (fun d => [d])
  | e1 :: e2 :: rest =>
    mapOption (fun entry => dictify (entry.drop 1) fields) (e1 :: e2 :: rest)

/-- Return shape of `_search`: one dict (`results[0]`) or a list of
dicts. -/
inductive SearchRet where
  | one : Dict → SearchRet
  | many : List Dict → SearchRet

/-- `DBHandler._search(table_name, field_name, value, case_sensitive,
extra_query, all_results)`: first component is the executed statement
text and its bound parameters, second the returned value (`none` models
a raised exception). -/
def search (table_name field_name : String) (value : Val)
    (case_sensitive : Bool) (extra_query : String) (all_results : Bool)
    (fetched : List (List Val)) (columns : List String) :
    (String × List Val) × Option SearchRet :=
  let check := get_check field_name case_sensitive
  let stmt := "\n" ++ sqlIndent ++ "SELECT * FROM " ++ table_name ++ "\n"
    ++ sqlIndent ++ check ++ " " ++ extra_query ++ "\n" ++ sqlIndent
  let ret := (format_sql_data fetched columns).map (fun results =>
    match results with
    | [] => SearchRet.many []
    | d :: rest =>
      if all_results then SearchRet.many (d :: rest) else SearchRet.one d)
  ((stmt, [value]), ret)

/-- `DBHandler._update_many(table_name, check_field, check_value,
updates, case_sensitive, extra_query)`: the statement text it executes
and the bound parameter sequence. -/
def update_many (table_name check_field : String) (check_value : Val)
    (updates : List (String × Val)) (case_sensitive : Bool)
    (extra_query : String) : String × List Val :=
  let check := get_check check_field case_sensitive
  let update_fields := updates.map Prod.fst
  let update_values := updates.map Prod.snd
  let update_string := joinWith " AND " update_fields
  ("\n" ++ sqlIndent ++ "UPDATE " ++ table_name ++ "\n" ++ sqlIndent
    ++ update_string ++ "\n" ++ sqlIndent ++ check ++ " " ++ extra_query
    ++ "\n" ++ sqlIndent,
   update_values ++ [check_value])

/-- `DBHandler._update(table_name, check_field, check_value,
update_field, update_value, case_sensitive, extra_query)`: delegates to
`_update_many` with the single-entry mapping. -/
def update (table_name check_field : String) (check_value : Val)
    (update_field : String) (update_value : Val) (case_sensitive : Bool)
    (extra_query : String) : String × List Val :=
  update_many table_name check_field check_value
    [(update_field, update_value)] case_sensitive extra_query

/-- Model of Python `repr` on the strings this bot stores (no control
characters): prefers single quotes; uses double quotes when the string
holds a single quote but no double quote; escapes the single quote
otherwise. -/
def pyReprString (s : String) : String :=
  if s.data.contains '\x27' && !s.data.contains '\x22' then
    "\x22" ++ s ++ "\x22"
  else "\x27" ++ String.mk (s.data.foldr
    (fun c acc => if c = '\x27' then '\x5c' :: '\x27' :: acc else c :: acc)
    []) ++ "\x27"

mutual

/-- Model of Python `str(value)` (= `repr`) on a `Val`. -/
def pyRepr : Val → String
  | Val.str s => pyReprString s
  | Val.int n => toString n
  | Val.dict kvs =>
    "\x7b" ++ joinWith ", " (pyReprEntries kvs) ++ "\x7d"

/-- `repr` of the entries of a Python dict, in insertion order. -/
def pyReprEntries : List (String × Val) → List String
  | [] => []
  | (k, v) :: rest => (pyReprString k ++ ": " ++ pyRepr v) :: pyReprEntries rest

end

/-- The character transform of `str(value).replace(&#x27;, &#x22;)` in
`_add`: a single quote becomes a double quote, anything else is kept. -/
def swapChar (c : Char) : Char := if c = '\x27' then '\x22' else c

/-- Python `s.replace("'", '"')` for the one-character pattern: a
character-wise map. -/
def replaceSQ (s : String) : String := String.mk (s.data.map swapChar)

/-- The per-value binding step of `_add`: a dict value is bound as
`str(value).replace("'", '"')`, any other value is bound unchanged. -/
def encodeVal : Val → Val
  | Val.dict kvs => Val.str (replaceSQ (pyRepr (Val.dict kvs)))
  | Val.str s => Val.str s
  | Val.int n => Val.int n

/-- `DBHandler._add(table_name, guild_id, given_values)`: returns the
mutated `given_values` (Python mutates the caller's dict in place), the
executed statement text, and the bound parameter tuple. -/
def add (table_name : String) (guild_id : Int) (given_values : Dict) :
    Dict × String × List Val :=
  let gv := dictAssign given_values "server_id" (Val.int guild_id)
  let fields := gv.map Prod.fst
  let values := gv.map (fun kv => encodeVal kv.2)
  let formatted_fields := "(" ++ joinWith ", " fields ++ ")"
  let value_blanks :=
    "(" ++ joinWith ", " (values.map (fun _ => "%s")) ++ ")"
  (gv,
   "INSERT INTO " ++ table_name ++ " " ++ formatted_fields ++ " VALUES "
     ++ value_blanks,
   values)

/-! ## Helper lemmas -/

theorem dictAssign_keys (d : Dict) (k : String) (v : Val) (k' : String)
    (h : k' ∈ (dictAssign d k v).map Prod.fst) :
    k' = k ∨ k' ∈ d.map Prod.fst := by
  induction d with
  | nil => simpa [dictAssign] using h
  | cons kv0 rest ih =>
    obtain ⟨k0, v0⟩ := kv0
    by_cases hk : k0 = k
    · simp only [dictAssign, if_pos hk, List.map_cons, List.mem_cons] at h
      rcases h with h | h
      · exact Or.inl h
      · exact Or.inr (by simp [h])
    · simp only [dictAssign, if_neg hk, List.map_cons, List.mem_cons] at h
      rcases h with h | h
      · exact Or.inr (by simp [h])
      · rcases ih h with h' | h'
        · exact Or.inl h'
        · exact Or.inr (by simp [h'])

theorem dictifyGo_keys (fields : List String) :
    ∀ (data : List Val) (acc d : Dict),
      dictifyGo data fields acc = some d →
      ∀ k, k ∈ d.map Prod.fst → k ∈ acc.map Prod.fst ∨ k ∈ fields := by
  induction fields with
  | nil =>
    intro data acc d h k hk
    cases data <;> simp only [dictifyGo, Option.some.injEq] at h <;>
      exact h ▸ Or.inl hk
  | cons k0 ks ih =>
    intro data acc d h k hk
    cases data with
    | nil => simp [dictifyGo] at h
    | cons v vs =>
      simp only [dictifyGo] at h
      rcases ih vs (dictAssign acc k0 v) d h k hk with h' | h'
      · rcases dictAssign_keys acc k0 v k h' with h'' | h''
        · exact Or.inr (by simp [h''])
        · exact Or.inl h''
      · exact Or.inr (by simp [h'])

theorem dictify_keys (data : List Val) (fields : List String) (d : Dict)
    (h : dictify data fields = some d) :
    ∀ k, k ∈ d.map Prod.fst → k ∈ fields := by
  intro k hk
  rcases dictifyGo_keys fields data [] d h k hk with h' | h'
  · simp at h'
  · exact h'

theorem mapOption_mem {α β : Type} (f : α → Option β) :
    ∀ (l : List α) (res : List β), mapOption f l = some res →
      ∀ b ∈ res, ∃ a ∈ l, f a = some b := by
  intro l
  induction l with
  | nil =>
    intro res h b hb
    simp only [mapOption, Option.some.injEq] at h
    simp [← h] at hb
  | cons a as ih =>
    intro res h b hb
    simp only [mapOption] at h
    cases hfa : f a with
    | none => simp [hfa] at h
    | some b0 =>
      simp only [hfa] at h
      cases hrest : mapOption f as with
      | none => simp [hrest] at h
      | some bs =>
        simp only [hrest, Option.map_some', Option.some.injEq] at h
        subst h
        rcases List.mem_cons.mp hb with hb | hb
        · exact ⟨a, by simp, hb ▸ hfa⟩
        · rcases ih bs hrest b hb with ⟨a', ha', hfa'⟩
          exact ⟨a', by simp [ha'], hfa'⟩

theorem dictLookup_dictAssign (d : Dict) (k : String) (v : Val) :
    dictLookup (dictAssign d k v) k = some v := by
  induction d with
  | nil => simp [dictAssign, dictLookup]
  | cons kv0 rest ih =>
    obtain ⟨k0, v0⟩ := kv0
    by_cases hk : k0 = k
    · simp [dictAssign, hk, dictLookup]
    · simp [dictAssign, hk, dictLookup, ih]

theorem joinWith_chars (sep : String) :
    ∀ (l : List String) (c : Char), c ∈ (joinWith sep l).data →
      c ∈ sep.data ∨ ∃ x ∈ l, c ∈ x.data := by
  intro l
  induction l with
  | nil => intro c hc; simp [joinWith] at hc
  | cons x ys ih =>
    intro c hc
    cases ys with
    | nil =>
      simp only [joinWith] at hc
      exact Or.inr ⟨x, by simp, hc⟩
    | cons y rest =>
      simp only [joinWith, String.data_append, List.mem_append] at hc
      rcases hc with (hc | hc) | hc
      · exact Or.inr ⟨x, by simp, hc⟩
      · exact Or.inl hc
      · rcases ih c hc with h | ⟨z, hz, hcz⟩
        · exact Or.inl h
        · exact Or.inr ⟨z, by simp [List.mem_cons.mp hz], hcz⟩

theorem format_sql_data_mem (data : List (List Val)) (columns : List String)
    (result : List Dict) (h : format_sql_data data columns = some result) :
    ∀ d ∈ result, ∃ entry ∈ data,
      dictify (entry.drop 1) (get_table_fields columns) = some d := by
  intro d hd
  cases data with
  | nil =>
    simp only [format_sql_data, Option.some.injEq] at h
    subst h; simp at hd
  | cons e1 tail =>
    cases tail with
    | nil =>
      simp only [format_sql_data, Option.map_eq_some'] at h
      obtain ⟨d0, hdict, hres⟩ := h
      subst hres
      simp only [List.mem_singleton] at hd
      subst hd
      exact ⟨e1, by simp, by simpa [List.drop_one] using hdict⟩
    | cons e2 rest =>
      simp only [format_sql_data] at h
      exact mapOption_mem _ _ _ h d hd

/-! ## Claim theorems -/

/-- C1: for every table, field, value and extra query, `_search` with
`all_results=false` returns exactly the first dictionary of the list that
the same call with `all_results=true` returns, and returns the empty
sequence when zero rows match. -/
theorem search_single_is_head_of_all :
    ∀ (table_name field_name : String) (value : Val) (case_sensitive : Bool)
      (extra_query : String) (fetched : List (List Val))
      (columns : List String),
      (∀ (d : Dict) (rest : List Dict),
        (search table_name field_name value case_sensitive extra_query true
            fetched columns).2 = some (SearchRet.many (d :: rest)) →
        (search table_name field_name value case_sensitive extra_query false
            fetched columns).2 = some (SearchRet.one d))
      ∧ (search table_name field_name value case_sensitive extra_query false
          [] columns).2 = some (SearchRet.many []) := by
  intro t f v cs e fetched columns
  refine ⟨?_, rfl⟩
  intro d rest h
  simp only [search, Option.map_eq_some'] at h ⊢
  obtain ⟨results, hres, hmatch⟩ := h
  refine ⟨results, hres, ?_⟩
  cases results with
  | nil => simp at hmatch
  | cons d0 rest0 =>
    simp only [if_pos] at hmatch
    cases hmatch
    rfl

/-- C1 witness: a one-row search returns that row's dictionary. -/
theorem search_single_is_head_of_all_witness :
    (search "teams" "team_name" (Val.str "x") true "" false
        [[Val.int 1, Val.str "a"]] ["server_id", "name"]).2
      = some (SearchRet.one [("name", Val.str "a")]) :=
  (search_single_is_head_of_all "teams" "team_name" (Val.str "x") true ""
      [[Val.int 1, Val.str "a"]] ["server_id", "name"]).1
    [("name", Val.str "a")] [] rfl

/-- C2: when the catalog columns of a table start with a synthetic
identifier column (and, as in SQL, no later column repeats its name; the
table carries the `server_id` marker column somewhere), no dictionary
produced by `_format_sql_data` has a key for that identifier column, and
each dictionary arises by zipping a fetched row with its leading column
stripped against the trimmed field list. -/
theorem format_sql_data_strips_id_key :
    ∀ (data : List (List Val)) (idCol : String) (rest : List String)
      (result : List Dict),
      "server_id" ∈ idCol :: rest → idCol ∉ rest →
      format_sql_data data (idCol :: rest) = some result →
      ∀ d ∈ result, idCol ∉ d.map Prod.fst ∧ ∃ entry ∈ data,
        dictify (entry.drop 1) (get_table_fields (idCol :: rest)) = some d := by
  intro data idCol rest result hmem hnodup hfmt d hd
  obtain ⟨entry, hentry, hdict⟩ := format_sql_data_mem data _ result hfmt d hd
  refine ⟨fun hkey => ?_, ⟨entry, hentry, hdict⟩⟩
  have hfields : get_table_fields (idCol :: rest) = rest := by
    simp [get_table_fields, hmem]
  have := dictify_keys _ _ _ hdict idCol hkey
  rw [hfields] at this
  exact hnodup this

/-- C2 witness: on `server_config`-like columns, the produced dictionary
has no `server_id` key. -/
theorem format_sql_data_strips_id_key_witness :
    ("server_id" : String) ∉ ([("name", Val.str "a")] : Dict).map Prod.fst :=
  (format_sql_data_strips_id_key [[Val.int 7, Val.str "a"]] "server_id"
      ["name"] [[("name", Val.str "a")]] (by simp) (by simp) rfl
      [("name", Val.str "a")] (by simp)).1

/-- C3 counterexample: with catalog columns `["name", "server_id"]` the
first entry is not the identifier field, so the claim predicts the list
is returned unchanged; `_get_table_fields` nevertheless drops the first
entry, because it tests membership of `server_id` anywhere in the list. -/
theorem get_table_fields_first_entry_counterexample :
    (["name", "server_id"] : List String).head? = some "name"
    ∧ "name" ≠ "server_id"
    ∧ get_table_fields ["name", "server_id"] = ["server_id"]
    ∧ get_table_fields ["name", "server_id"] ≠ ["name", "server_id"] := by
  refine ⟨rfl, by decide, ?_, by decide⟩
  simp [get_table_fields]

/-- C3 amended: `_get_table_fields` returns the catalog-order column
list with its first entry dropped if and only if the name `server_id`
occurs anywhere in that list; otherwise the list is returned
unchanged. -/
theorem get_table_fields_drop_iff_member :
    ∀ columns : List String,
      ("server_id" ∈ columns → get_table_fields columns = columns.drop 1)
      ∧ ("server_id" ∉ columns → get_table_fields columns = columns) := by
  intro columns
  constructor <;> intro h <;> simp [get_table_fields, h]

/-- C3 witness: both branches of the amended claim at concrete column
lists. -/
theorem get_table_fields_drop_iff_member_witness :
    get_table_fields ["server_id", "name"] = ["name"]
    ∧ get_table_fields ["alpha", "beta"] = ["alpha", "beta"] :=
  ⟨(get_table_fields_drop_iff_member ["server_id", "name"]).1 (by decide),
   (get_table_fields_drop_iff_member ["alpha", "beta"]).2 (by decide)⟩

/-- C4: for a non-empty `updates` mapping, the statement text built by
`_update_many` is `UPDATE <table>` followed directly by the keys of
`updates` joined with `" AND "`, then the `WHERE` condition and the
extra query; the bound parameters are the values of `updates` followed
by the check value.  No `SET` keyword or `=` assignment stands between
field names and values: every character of the joined-keys segment comes
from `" AND "` or from a field name itself. -/
theorem update_many_stmt_shape :
    ∀ (table_name check_field : String) (check_value : Val)
      (updates : List (String × Val)) (case_sensitive : Bool)
      (extra_query : String), updates ≠ [] →
      update_many table_name check_field check_value updates case_sensitive
          extra_query
        = ("\n" ++ sqlIndent ++ "UPDATE " ++ table_name ++ "\n" ++ sqlIndent
            ++ joinWith " AND " (updates.map Prod.fst) ++ "\n" ++ sqlIndent
            ++ get_check check_field case_sensitive ++ " " ++ extra_query
            ++ "\n" ++ sqlIndent,
           updates.map Prod.snd ++ [check_value])
      ∧ (∀ c : Char, c ∈ (joinWith " AND " (updates.map Prod.fst)).data →
          c ∈ (" AND " : String).data
          ∨ ∃ fld ∈ updates.map Prod.fst, c ∈ fld.data) := by
  intro t cf cv updates cs e _
  exact ⟨rfl, fun c hc => joinWith_chars " AND " (updates.map Prod.fst) c hc⟩

/-- C4 witness: the statement built for a two-field update of `cache`. -/
theorem update_many_stmt_shape_witness :
    update_many "cache" "team_name" (Val.str "x")
        [("players", Val.str "p"), ("last_saved", Val.str "t")] true ""
      = ("\n" ++ sqlIndent ++ "UPDATE " ++ "cache" ++ "\n" ++ sqlIndent
          ++ joinWith " AND "
              ([("players", Val.str "p"), ("last_saved", Val.str "t")].map
                Prod.fst)
          ++ "\n" ++ sqlIndent ++ get_check "team_name" true ++ " " ++ ""
          ++ "\n" ++ sqlIndent,
         [("players", Val.str "p"), ("last_saved", Val.str "t")].map Prod.snd
           ++ [Val.str "x"]) :=
  (update_many_stmt_shape "cache" "team_name" (Val.str "x")
      [("players", Val.str "p"), ("last_saved", Val.str "t")] true ""
      (by simp)).1

/-- C5: `_update` has exactly the effect of `_update_many` with the
single-entry mapping and the same case-sensitivity and extra-query
arguments. -/
theorem update_refines_update_many :
    ∀ (table_name check_field : String) (check_value : Val)
      (update_field : String) (update_value : Val) (case_sensitive : Bool)
      (extra_query : String),
      update table_name check_field check_value update_field update_value
          case_sensitive extra_query
        = update_many table_name check_field check_value
            [(update_field, update_value)] case_sensitive extra_query := by
  intros
  rfl

/-- C6: in `_add`, the bound parameters are the values of the (mutated)
mapping each passed through `encodeVal`, which replaces a dict value by
its native string representation with each single quote swapped for a
double quote and leaves every other value unchanged; the swap changes
nothing else: it is a character-wise map fixing every character other
than the single quote. -/
theorem add_encodes_dict_values :
    ∀ (table_name : String) (guild_id : Int) (given_values : Dict),
      (add table_name guild_id given_values).2.2
        = (dictAssign given_values "server_id" (Val.int guild_id)).map
            (fun kv => encodeVal kv.2)
      ∧ (∀ kvs : List (String × Val),
          encodeVal (Val.dict kvs)
            = Val.str (replaceSQ (pyRepr (Val.dict kvs))))
      ∧ (∀ s : String, encodeVal (Val.str s) = Val.str s)
      ∧ (∀ n : Int, encodeVal (Val.int n) = Val.int n)
      ∧ (∀ s : String, (replaceSQ s).data = s.data.map swapChar)
      ∧ swapChar '\x27' = '\x22'
      ∧ (∀ c : Char, c ≠ '\x27' → swapChar c = c) := by
  intro t g kvs
  refine ⟨rfl, fun _ => rfl, fun _ => rfl, fun _ => rfl, fun _ => rfl, rfl,
    fun c hc => ?_⟩
  simp [swapChar, hc]

/-- C6 witness: concrete bound parameters of an `_add`, and the swap
fixing a non-quote character. -/
theorem add_encodes_dict_values_witness :
    (add "player_data" 7 [("name", Val.str "ana")]).2.2
      = (dictAssign [("name", Val.str "ana")] "server_id" (Val.int 7)).map
          (fun kv => encodeVal kv.2)
    ∧ swapChar 'a' = 'a' :=
  ⟨(add_encodes_dict_values "player_data" 7 [("name", Val.str "ana")]).1,
   (add_encodes_dict_values "player_data" 7
       [("name", Val.str "ana")]).2.2.2.2.2.2 'a' (by decide)⟩

/-- C7: the statement `_search` executes is `SELECT * FROM <table>`
followed by the condition from `get_check` and then the extra query
verbatim, with the search value as the sole bound parameter; the
condition is a plain equality when case-sensitive and wraps field and
placeholder in `LOWER()` otherwise. -/
theorem search_stmt_shape :
    ∀ (table_name field_name : String) (value : Val) (case_sensitive : Bool)
      (extra_query : String) (all_results : Bool) (fetched : List (List Val))
      (columns : List String),
      (search table_name field_name value case_sensitive extra_query
          all_results fetched columns).1
        = ("\n" ++ sqlIndent ++ "SELECT * FROM " ++ table_name ++ "\n"
            ++ sqlIndent ++ get_check field_name case_sensitive ++ " "
            ++ extra_query ++ "\n" ++ sqlIndent,
           [value])
      ∧ (∀ f : String, get_check f true = "WHERE " ++ f ++ " = %s")
      ∧ (∀ f : String,
          get_check f false = "WHERE LOWER(" ++ f ++ ") = LOWER(%s)") := by
  intros
  exact ⟨rfl, fun _ => rfl, fun _ => rfl⟩

/-- C8: with zero fetched rows, `_format_sql_data` and `_search` return
the empty sequence through the normal (non-error) path: the result is
`some []`, never the `none` that models a raised error. -/
theorem empty_rows_empty_result :
    ∀ (table_name field_name : String) (value : Val) (case_sensitive : Bool)
      (extra_query : String) (all_results : Bool) (columns : List String),
      format_sql_data [] columns = some []
      ∧ (search table_name field_name value case_sensitive extra_query
          all_results [] columns).2 = some (SearchRet.many [])
      ∧ format_sql_data [] columns ≠ none := by
  intros
  exact ⟨rfl, rfl, by simp [format_sql_data]⟩

/-- C9: `_add` assigns `server_id := guild_id` into the caller-supplied
mapping before building the statement; in this explicit-state embedding
the mapping handed back to the caller is exactly the mutated one and
holds that entry. -/
theorem add_inserts_server_id :
    ∀ (table_name : String) (guild_id : Int) (given_values : Dict),
      (add table_name guild_id given_values).1
          = dictAssign given_values "server_id" (Val.int guild_id)
      ∧ dictLookup (add table_name guild_id given_values).1 "server_id"
          = some (Val.int guild_id) := by
  intro t g kvs
  exact ⟨rfl, dictLookup_dictAssign kvs "server_id" (Val.int g)⟩

/-- C10: on any non-empty fetched row list, `_format_sql_data` equals
the uniform map of each row to the dictionary of its values after the
first zipped with the trimmed field list, so the length-one branch is
redundant. -/
theorem format_sql_data_branches_equiv :
    ∀ (data : List (List Val)) (columns : List String), data ≠ [] →
      format_sql_data data columns
        = mapOption
            (fun entry => dictify (entry.drop 1) (get_table_fields columns))
            data := by
  intro data columns hne
  match data with
  | [] => exact absurd rfl hne
  | [row] =>
    simp only [format_sql_data, mapOption]
    cases h : dictify (row.drop 1) (get_table_fields columns) <;>
      simp [h, mapOption]
  | e1 :: e2 :: rest => rfl

/-- C10 witness: both branches agree on a concrete two-row fetch. -/
theorem format_sql_data_branches_equiv_witness :
    format_sql_data [[Val.int 1, Val.str "a"], [Val.int 2, Val.str "b"]]
        ["server_id", "name"]
      = mapOption
          (fun entry => dictify (entry.drop 1)
            (get_table_fields ["server_id", "name"]))
          [[Val.int 1, Val.str "a"], [Val.int 2, Val.str "b"]] :=
  format_sql_data_branches_equiv
    [[Val.int 1, Val.str "a"], [Val.int 2, Val.str "b"]]
    ["server_id", "name"] (by simp)

end Thonky
